import Mathlib

/-!
Verification of the transaction construction / borsh encoding / signing module
(`src/transaction.ts`) of near-api-js.

Strings are modelled as their UTF-8 byte sequences (`List Nat`, each < 256);
`Uint8Array` values are `List Nat`; `BN`/`number` values are `Nat`.
Serialization follows the borsh SCHEMA declared in `src/transaction.ts`
(lines 184-272): little-endian fixed-width integers, 4-byte length prefixed
strings and sequences, fixed byte arrays written raw, 1-byte option flag,
1-byte enum discriminant.  Serialization is `Option`-valued: `none` models a
thrown serialization error (value out of range, wrong fixed-array length,
or an `undefined` where a string is required).
-/

namespace NearTx

/-- Little-endian byte representation of `n`, `w` bytes wide. -/
def natToLe (w : Nat) (n : Nat) : List Nat :=
  match w with
  | 0 => []
  | w + 1 => n % 256 :: natToLe w (n / 256)

/-- Read back a little-endian byte list as a natural number. -/
def leToNat : List Nat → Nat
  | [] => 0
  | b :: bs => b + 256 * leToNat bs

/-- Serialize an unsigned integer of `w` bytes (borsh `u8`/`u32`/`u64`/`u128`);
fails when the value does not fit, as `BN.toArray('le', w)` throws. -/
def serUInt (w : Nat) (n : Nat) : Option (List Nat) :=
  if n < 256 ^ w then some (natToLe w n) else none

/-- Consume exactly `w` bytes from the input. -/
def readBytes (w : Nat) (input : List Nat) : Option (List Nat × List Nat) :=
  if w ≤ input.length then some (input.take w, input.drop w) else none

/-- Parse a `w`-byte little-endian unsigned integer. -/
def parseUInt (w : Nat) (input : List Nat) : Option (Nat × List Nat) :=
  (readBytes w input).map (fun p => (leToNat p.1, p.2))

/-- Serialize a fixed-width byte array (borsh `[w]`); the length must match
exactly and every element must be a byte. -/
def serBytesFixed (w : Nat) (bs : List Nat) : Option (List Nat) :=
  if bs.length = w ∧ bs.all (· < 256) then some bs else none

/-- Serialize a variable-length byte/char sequence (borsh `'string'` or
`['u8']`): 4-byte little-endian length followed by the raw bytes. -/
def serString (s : List Nat) : Option (List Nat) :=
  match serUInt 4 s.length with
  | none => none
  | some lenBytes => if s.all (· < 256) then some (lenBytes ++ s) else none

/-- Parse a 4-byte length prefixed byte sequence. -/
def parseString (input : List Nat) : Option (List Nat × List Nat) :=
  match parseUInt 4 input with
  | none => none
  | some (n, r) => readBytes n r

/-- Serialize a borsh option: byte 0, or byte 1 followed by the value. -/
def serOpt (serElem : α → Option (List Nat)) : Option α → Option (List Nat)
  | none => some [0]
  | some v => (serElem v).map (fun bs => 1 :: bs)

/-- Parse a borsh option (a nonzero flag byte means present, as in
borsh-js `if (reader.readU8())`). -/
def parseOpt (parseElem : List Nat → Option (α × List Nat)) :
    List Nat → Option (Option α × List Nat)
  | [] => none
  | b :: r => if b = 0 then some (none, r)
              else (parseElem r).map (fun p => (some p.1, p.2))

/-- Model of `PublicKey` (`src/utils/key_pair`): `{keyType: u8, data: 32 bytes}`. -/
structure PublicKey where
  keyType : Nat
  data : List Nat
  deriving DecidableEq, Repr

/-- Model of `Signature` (`src/transaction.ts` lines 133-136). -/
structure Signature where
  keyType : Nat
  data : List Nat
  deriving DecidableEq, Repr

/-- Model of `FunctionCallPermission` (lines 10-14). -/
structure FunctionCallPermission where
  allowance : Option Nat
  receiverId : List Nat
  methodNames : List (List Nat)
  deriving DecidableEq, Repr

/-- Model of `AccessKeyPermission` enum (lines 18-21): exactly one variant populated. -/
inductive AccessKeyPermission where
  | functionCall (p : FunctionCallPermission)
  | fullAccess
  deriving DecidableEq, Repr

/-- Model of `AccessKey` (lines 23-26). -/
structure AccessKey where
  nonce : Nat
  permission : AccessKeyPermission
  deriving DecidableEq, Repr

mutual
/-- The 9-variant `Action` enum (lines 172-182 and SCHEMA lines 219-229). -/
inductive Action where
  | createAccount
  | deployContract (code : List Nat)
  | functionCall (methodName : List Nat) (args : List Nat) (gas : Nat) (deposit : Nat)
  | transfer (deposit : Nat)
  | stake (stake : Nat) (publicKey : PublicKey)
  | addKey (publicKey : PublicKey) (accessKey : AccessKey)
  | deleteKey (publicKey : PublicKey)
  | deleteAccount (beneficiaryId : List Nat)
  | delegate (delegateAction : DelegateAction) (signature : Signature)

/-- Model of `NonDelegateAction` (lines 46-48): a struct wrapping a single `Action`. -/
inductive NonDelegateAction where
  | mk (action : Action)

/-- Model of `DelegateAction` (lines 49-56). -/
inductive DelegateAction where
  | mk (senderId : List Nat) (receiverId : List Nat)
       (actions : List NonDelegateAction) (nonce : Nat)
       (blockHash : List Nat) (publicKey : PublicKey)
end

/-- Model of `Transaction` (lines 138-144).  `signerId` is `Option` because the JS
runtime lets `createTransaction` receive an `undefined` accountId (the
optional parameter of the parts form of `signTransaction`). -/
structure Transaction where
  signerId : Option (List Nat)
  publicKey : PublicKey
  nonce : Nat
  receiverId : List Nat
  actions : List Action
  blockHash : List Nat

/-- Model of `SignedTransaction` (lines 155-157). -/
structure SignedTransaction where
  transaction : Transaction
  signature : Signature

/-- SCHEMA entry for `PublicKey` (lines 201-204): u8 keyType, 32 raw bytes. -/
def serPublicKey (pk : PublicKey) : Option (List Nat) :=
  match serUInt 1 pk.keyType, serBytesFixed 32 pk.data with
  | some kt, some d => some (kt ++ d)
  | _, _ => none

/-- SCHEMA entry for `Signature` (lines 185-188): u8 keyType, 64 raw bytes. -/
def serSignature (s : Signature) : Option (List Nat) :=
  match serUInt 1 s.keyType, serBytesFixed 64 s.data with
  | some kt, some d => some (kt ++ d)
  | _, _ => none

/-- Serialize a list of strings as a borsh sequence body (elements only). -/
def serStringList : List (List Nat) → Option (List Nat)
  | [] => some []
  | s :: rest =>
    match serString s, serStringList rest with
    | some b, some r => some (b ++ r)
    | _, _ => none

/-- SCHEMA entry for `FunctionCallPermission` (lines 213-217):
option u128 allowance, string receiverId, vec of string methodNames. -/
def serFunctionCallPermission (p : FunctionCallPermission) : Option (List Nat) :=
  match serOpt (serUInt 16) p.allowance, serString p.receiverId,
        serUInt 4 p.methodNames.length, serStringList p.methodNames with
  | some a, some r, some n, some m => some (a ++ r ++ n ++ m)
  | _, _, _, _ => none

/-- SCHEMA entry for `AccessKeyPermission` (lines 209-212): enum with
discriminant 0 = functionCall, 1 = fullAccess. -/
def serAccessKeyPermission : AccessKeyPermission → Option (List Nat)
  | .functionCall p => (serFunctionCallPermission p).map (fun bs => 0 :: bs)
  | .fullAccess => some [1]

/-- SCHEMA entry for `AccessKey` (lines 205-208): u64 nonce, permission. -/
def serAccessKey (k : AccessKey) : Option (List Nat) :=
  match serUInt 8 k.nonce, serAccessKeyPermission k.permission with
  | some n, some p => some (n ++ p)
  | _, _ => none

mutual
/-- SCHEMA entry for `Action` (lines 219-229): 1-byte discriminant in
declaration order (createAccount 0 … delegate 8), then the variant body. -/
def serAction : Action → Option (List Nat)
  | .createAccount => some [0]
  | .deployContract code => (serString code).map (fun bs => 1 :: bs)
  | .functionCall m args g d =>
    match serString m, serString args, serUInt 8 g, serUInt 16 d with
    | some mb, some ab, some gb, some db => some (2 :: (mb ++ ab ++ gb ++ db))
    | _, _, _, _ => none
  | .transfer d => (serUInt 16 d).map (fun bs => 3 :: bs)
  | .stake s pk =>
    match serUInt 16 s, serPublicKey pk with
    | some sb, some pb => some (4 :: (sb ++ pb))
    | _, _ => none
  | .addKey pk ak =>
    match serPublicKey pk, serAccessKey ak with
    | some pb, some kb => some (5 :: (pb ++ kb))
    | _, _ => none
  | .deleteKey pk => (serPublicKey pk).map (fun bs => 6 :: bs)
  | .deleteAccount b => (serString b).map (fun bs => 7 :: bs)
  | .delegate d s =>
    match serDelegateAction d, serSignature s with
    | some db, some sb => some (8 :: (db ++ sb))
    | _, _ => none

/-- SCHEMA entry for `DelegateAction` (lines 260-267): senderId, receiverId,
vec of NonDelegateAction, u64 nonce, 32-byte blockHash, publicKey. -/
def serDelegateAction : DelegateAction → Option (List Nat)
  | .mk sid rid acts n bh pk =>
    match serString sid, serString rid, serUInt 4 acts.length,
          serNonDelegateActionList acts, serUInt 8 n,
          serBytesFixed 32 bh, serPublicKey pk with
    | some a, some b, some c, some d, some e, some f, some g =>
      some (a ++ b ++ c ++ d ++ e ++ f ++ g)
    | _, _, _, _, _, _, _ => none

/-- Body of a vec of `NonDelegateAction` (SCHEMA lines 257-259): each wrapper
struct encodes as its single `Action` field. -/
def serNonDelegateActionList : List NonDelegateAction → Option (List Nat)
  | [] => some []
  | .mk a :: rest =>
    match serAction a, serNonDelegateActionList rest with
    | some b, some r => some (b ++ r)
    | _, _ => none
end

/-- Body of a vec of `Action` (elements only, no count). -/
def serActionList : List Action → Option (List Nat)
  | [] => some []
  | a :: rest =>
    match serAction a, serActionList rest with
    | some b, some r => some (b ++ r)
    | _, _ => none

/-- SCHEMA entry for `Transaction` (lines 193-200): signerId, publicKey,
u64 nonce, receiverId, **blockHash, then actions** — this is the field order
the SCHEMA declares.  An `undefined` signerId cannot be serialized. -/
def serTransaction (t : Transaction) : Option (List Nat) :=
  match t.signerId with
  | none => none
  | some sid =>
    match serString sid, serPublicKey t.publicKey, serUInt 8 t.nonce,
          serString t.receiverId, serBytesFixed 32 t.blockHash,
          serUInt 4 t.actions.length, serActionList t.actions with
    | some a, some b, some c, some d, some e, some f, some g =>
      some (a ++ b ++ c ++ d ++ e ++ (f ++ g))
    | _, _, _, _, _, _, _ => none

/-- SCHEMA entry for `SignedTransaction` (lines 189-192). -/
def serSignedTransaction (st : SignedTransaction) : Option (List Nat) :=
  match serTransaction st.transaction, serSignature st.signature with
  | some t, some s => some (t ++ s)
  | _, _ => none

/-- Parse a `PublicKey`: u8 keyType then 32 raw bytes. -/
def parsePublicKey (input : List Nat) : Option (PublicKey × List Nat) :=
  match parseUInt 1 input with
  | none => none
  | some (kt, r) =>
    match readBytes 32 r with
    | none => none
    | some (d, r2) => some (⟨kt, d⟩, r2)

/-- Parse a `Signature`: u8 keyType then 64 raw bytes. -/
def parseSignature (input : List Nat) : Option (Signature × List Nat) :=
  match parseUInt 1 input with
  | none => none
  | some (kt, r) =>
    match readBytes 64 r with
    | none => none
    | some (d, r2) => some (⟨kt, d⟩, r2)

/-- Parse `n` borsh strings. -/
def parseStringVec : Nat → List Nat → Option (List (List Nat) × List Nat)
  | 0, input => some ([], input)
  | n + 1, input =>
    match parseString input with
    | none => none
    | some (s, r) =>
      match parseStringVec n r with
      | none => none
      | some (rest, r2) => some (s :: rest, r2)

/-- Parse a `FunctionCallPermission`. -/
def parseFunctionCallPermission (input : List Nat) :
    Option (FunctionCallPermission × List Nat) :=
  match parseOpt (parseUInt 16) input with
  | none => none
  | some (allowance, r1) =>
    match parseString r1 with
    | none => none
    | some (rid, r2) =>
      match parseUInt 4 r2 with
      | none => none
      | some (n, r3) =>
        match parseStringVec n r3 with
        | none => none
        | some (ms, r4) => some (⟨allowance, rid, ms⟩, r4)

/-- Parse an `AccessKeyPermission`: discriminant 0 or 1, any other byte is an
unknown-discriminant error. -/
def parseAccessKeyPermission (input : List Nat) :
    Option (AccessKeyPermission × List Nat) :=
  match input with
  | [] => none
  | 0 :: r => (parseFunctionCallPermission r).map (fun p => (.functionCall p.1, p.2))
  | 1 :: r => some (.fullAccess, r)
  | _ :: _ => none

/-- Parse an `AccessKey`. -/
def parseAccessKey (input : List Nat) : Option (AccessKey × List Nat) :=
  match parseUInt 8 input with
  | none => none
  | some (n, r) =>
    match parseAccessKeyPermission r with
    | none => none
    | some (p, r2) => some (⟨n, p⟩, r2)

mutual
/-- Parse an `Action` (fuel-indexed; fuel only decreases into nested
delegate payloads, so any fuel above the delegate-nesting need is enough). -/
def parseAction (fuel : Nat) (input : List Nat) : Option (Action × List Nat) :=
  match fuel with
  | 0 => none
  | f + 1 =>
    match input with
    | [] => none
    | 0 :: r => some (.createAccount, r)
    | 1 :: r => (parseString r).map (fun p => (.deployContract p.1, p.2))
    | 2 :: r =>
      match parseString r with
      | none => none
      | some (m, r1) =>
        match parseString r1 with
        | none => none
        | some (a, r2) =>
          match parseUInt 8 r2 with
          | none => none
          | some (g, r3) =>
            match parseUInt 16 r3 with
            | none => none
            | some (d, r4) => some (.functionCall m a g d, r4)
    | 3 :: r => (parseUInt 16 r).map (fun p => (.transfer p.1, p.2))
    | 4 :: r =>
      match parseUInt 16 r with
      | none => none
      | some (s, r1) =>
        match parsePublicKey r1 with
        | none => none
        | some (pk, r2) => some (.stake s pk, r2)
    | 5 :: r =>
      match parsePublicKey r with
      | none => none
      | some (pk, r1) =>
        match parseAccessKey r1 with
        | none => none
        | some (ak, r2) => some (.addKey pk ak, r2)
    | 6 :: r => (parsePublicKey r).map (fun p => (.deleteKey p.1, p.2))
    | 7 :: r => (parseString r).map (fun p => (.deleteAccount p.1, p.2))
    | 8 :: r =>
      match parseDelegateAction f r with
      | none => none
      | some (d, r1) =>
        match parseSignature r1 with
        | none => none
        | some (s, r2) => some (.delegate d s, r2)
    | _ :: _ => none
termination_by (fuel, 0)

/-- Parse a `DelegateAction`. -/
def parseDelegateAction (fuel : Nat) (input : List Nat) :
    Option (DelegateAction × List Nat) :=
  match fuel with
  | 0 => none
  | f + 1 =>
    match parseString input with
    | none => none
    | some (sid, r1) =>
      match parseString r1 with
      | none => none
      | some (rid, r2) =>
        match parseUInt 4 r2 with
        | none => none
        | some (cnt, r3) =>
          match parseNonDelegateActionVec f cnt r3 with
          | none => none
          | some (acts, r4) =>
            match parseUInt 8 r4 with
            | none => none
            | some (n, r5) =>
              match readBytes 32 r5 with
              | none => none
              | some (bh, r6) =>
                match parsePublicKey r6 with
                | none => none
                | some (pk, r7) => some (.mk sid rid acts n bh pk, r7)
termination_by (fuel, 0)

/-- Parse `cnt` wrapped `NonDelegateAction`s. -/
def parseNonDelegateActionVec (fuel : Nat) (cnt : Nat) (input : List Nat) :
    Option (List NonDelegateAction × List Nat) :=
  match fuel with
  | 0 => none
  | f + 1 =>
    match cnt with
    | 0 => some ([], input)
    | n + 1 =>
      match parseAction f input with
      | none => none
      | some (a, r1) =>
        match parseNonDelegateActionVec (f + 1) n r1 with
        | none => none
        | some (rest, r2) => some (.mk a :: rest, r2)
termination_by (fuel, cnt)
end

/-- Parse `cnt` `Action`s (the `actions` field of `Transaction`). -/
def parseActionVec (fuel : Nat) : Nat → List Nat → Option (List Action × List Nat)
  | 0, input => some ([], input)
  | n + 1, input =>
    match parseAction fuel input with
    | none => none
    | some (a, r1) =>
      match parseActionVec fuel n r1 with
      | none => none
      | some (rest, r2) => some (a :: rest, r2)

/-- Parse a `Transaction` per its SCHEMA entry (lines 193-200): signerId,
publicKey, u64 nonce, receiverId, 32-byte blockHash, vec of actions. -/
def parseTransaction (fuel : Nat) (input : List Nat) :
    Option (Transaction × List Nat) :=
  match parseString input with
  | none => none
  | some (sid, r1) =>
    match parsePublicKey r1 with
    | none => none
    | some (pk, r2) =>
      match parseUInt 8 r2 with
      | none => none
      | some (n, r3) =>
        match parseString r3 with
        | none => none
        | some (rid, r4) =>
          match readBytes 32 r4 with
          | none => none
          | some (bh, r5) =>
            match parseUInt 4 r5 with
            | none => none
            | some (cnt, r6) =>
              match parseActionVec fuel cnt r6 with
              | none => none
              | some (acts, r7) => some (⟨some sid, pk, n, rid, acts, bh⟩, r7)

/-- Parse a `SignedTransaction` (lines 189-192). -/
def parseSignedTransaction (fuel : Nat) (input : List Nat) :
    Option (SignedTransaction × List Nat) :=
  match parseTransaction fuel input with
  | none => none
  | some (t, r1) =>
    match parseSignature r1 with
    | none => none
    | some (s, r2) => some (⟨t, s⟩, r2)

/-- Model of `Transaction.encode` (line 146): `serialize(SCHEMA, this)`. -/
def Transaction.encode (t : Transaction) : Option (List Nat) :=
  serTransaction t

/-- Model of `Transaction.decode` (line 150): `deserialize(SCHEMA, Transaction, bytes)`;
borsh rejects trailing bytes after the top-level value.  The fuel
`bytes.length + 1` is an upper bound on delegate nesting depth, so it never
cuts off a parse of `bytes`. -/
def Transaction.decode (bytes : List Nat) : Option Transaction :=
  match parseTransaction (bytes.length + 1) bytes with
  | some (t, []) => some t
  | _ => none

/-- Model of `SignedTransaction.encode` (line 159). -/
def SignedTransaction.encode (st : SignedTransaction) : Option (List Nat) :=
  serSignedTransaction st

/-- Model of `SignedTransaction.decode` (line 163). -/
def SignedTransaction.decode (bytes : List Nat) : Option SignedTransaction :=
  match parseSignedTransaction (bytes.length + 1) bytes with
  | some (st, []) => some st
  | _ => none

/-- Big-endian byte representation of `n`, `w` bytes wide. -/
def natToBe (w : Nat) (n : Nat) : List Nat :=
  (natToLe w n).reverse

/-- Right rotation of a 32-bit word (exact for `x < 2^32`, `n ≤ 32`). -/
def rotr32 (n x : Nat) : Nat :=
  x / 2 ^ n + x % 2 ^ n * 2 ^ (32 - n)

/-- SHA-256 Σ0. -/
def sigmaBig0 (x : Nat) : Nat := rotr32 2 x ^^^ rotr32 13 x ^^^ rotr32 22 x

/-- SHA-256 Σ1. -/
def sigmaBig1 (x : Nat) : Nat := rotr32 6 x ^^^ rotr32 11 x ^^^ rotr32 25 x

/-- SHA-256 σ0. -/
def sigmaSmall0 (x : Nat) : Nat := rotr32 7 x ^^^ rotr32 18 x ^^^ x / 2 ^ 3

/-- SHA-256 σ1. -/
def sigmaSmall1 (x : Nat) : Nat := rotr32 17 x ^^^ rotr32 19 x ^^^ x / 2 ^ 10

/-- SHA-256 Ch. -/
def sha2Ch (x y z : Nat) : Nat := x &&& y ^^^ (x ^^^ (2 ^ 32 - 1)) &&& z

/-- SHA-256 Maj. -/
def sha2Maj (x y z : Nat) : Nat := x &&& y ^^^ x &&& z ^^^ y &&& z

/-- The 64 SHA-256 round constants. -/
def sha256K : List Nat :=
  [1116352408, 1899447441, 3049323471, 3921009573, 961987163,
   1508970993, 2453635748, 2870763221, 3624381080, 310598401,
   607225278, 1426881987, 1925078388, 2162078206, 2614888103,
   3248222580, 3835390401, 4022224774, 264347078, 604807628,
   770255983, 1249150122, 1555081692, 1996064986, 2554220882,
   2821834349, 2952996808, 3210313671, 3336571891, 3584528711,
   113926993, 338241895, 666307205, 773529912, 1294757372,
   1396182291, 1695183700, 1986661051, 2177026350, 2456956037,
   2730485921, 2820302411, 3259730800, 3345764771, 3516065817,
   3600352804, 4094571909, 275423344, 430227734, 506948616,
   659060556, 883997877, 958139571, 1322822218, 1537002063,
   1747873779, 1955562222, 2024104815, 2227730452, 2361852424,
   2428436474, 2756734187, 3204031479, 3329325298]

/-- The SHA-256 chaining state: eight 32-bit words. -/
structure Hash8 where
  w0 : Nat
  w1 : Nat
  w2 : Nat
  w3 : Nat
  w4 : Nat
  w5 : Nat
  w6 : Nat
  w7 : Nat

/-- The SHA-256 initial hash value. -/
def sha256Init : Hash8 :=
  ⟨1779033703, 3144134277, 1013904242, 2773480762,
   1359893119, 2600822924, 528734635, 1541459225⟩

/-- SHA-256 padding: 0x80, zeros to 56 mod 64, 8-byte big-endian bit length. -/
def sha256Pad (msg : List Nat) : List Nat :=
  msg ++ 128 :: (List.replicate ((64 + 55 - msg.length % 64) % 64) 0
    ++ natToBe 8 (msg.length * 8))

/-- Split into 64-byte chunks. -/
def chunks64 (l : List Nat) : List (List Nat) :=
  match l with
  | [] => []
  | a :: t => (a :: t).take 64 :: chunks64 ((a :: t).drop 64)
termination_by l.length
decreasing_by
  simp only [List.length_drop]
  simp
  omega

/-- Group bytes into big-endian 32-bit words. -/
def beWords : List Nat → List Nat
  | a :: b :: c :: d :: rest => (((a * 256 + b) * 256 + c) * 256 + d) :: beWords rest
  | _ => []

/-- Append one extended message-schedule word. -/
def scheduleStep (w : Array Nat) : Array Nat :=
  let i := w.size
  w.push ((w.getD (i - 16) 0 + sigmaSmall0 (w.getD (i - 15) 0)
    + w.getD (i - 7) 0 + sigmaSmall1 (w.getD (i - 2) 0)) % 2 ^ 32)

/-- Extend the schedule `k` more words. -/
def extendSchedule : Nat → Array Nat → Array Nat
  | 0, w => w
  | k + 1, w => extendSchedule k (scheduleStep w)

/-- The 64 SHA-256 compression rounds over (constant, schedule word) pairs. -/
def sha256Rounds : List (Nat × Nat) → Hash8 → Hash8
  | [], st => st
  | (k, w) :: rest, ⟨a, b, c, d, e, f, g, h⟩ =>
    let t1 := (h + sigmaBig1 e + sha2Ch e f g + k + w) % 2 ^ 32
    let t2 := (sigmaBig0 a + sha2Maj a b c) % 2 ^ 32
    sha256Rounds rest ⟨(t1 + t2) % 2 ^ 32, a, b, c, (d + t1) % 2 ^ 32, e, f, g⟩

/-- Compress one 64-byte block into the chaining state. -/
def sha256Block (H : Hash8) (block : List Nat) : Hash8 :=
  let w := extendSchedule 48 (beWords block).toArray
  let st := sha256Rounds (sha256K.zip w.toList) H
  ⟨(H.w0 + st.w0) % 2 ^ 32, (H.w1 + st.w1) % 2 ^ 32, (H.w2 + st.w2) % 2 ^ 32,
   (H.w3 + st.w3) % 2 ^ 32, (H.w4 + st.w4) % 2 ^ 32, (H.w5 + st.w5) % 2 ^ 32,
   (H.w6 + st.w6) % 2 ^ 32, (H.w7 + st.w7) % 2 ^ 32⟩

/-- SHA-256 of a byte sequence (`js-sha256`'s `sha256.array`). -/
def sha256 (msg : List Nat) : List Nat :=
  let H := (chunks64 (sha256Pad msg)).foldl sha256Block sha256Init
  natToBe 4 H.w0 ++ natToBe 4 H.w1 ++ natToBe 4 H.w2 ++ natToBe 4 H.w3
    ++ natToBe 4 H.w4 ++ natToBe 4 H.w5 ++ natToBe 4 H.w6 ++ natToBe 4 H.w7

/-- What near's `Signer.signMessage` / `KeyPair.sign` return: an object whose
`signature` field holds the raw signature bytes. -/
structure SignOutput where
  signature : List Nat

/-- The external `Signer` capability (`src/signer`): `getPublicKey` and
`signMessage`, each taking optional accountId and networkId. -/
structure Signer where
  getPublicKey : Option (List Nat) → Option (List Nat) → PublicKey
  signMessage : List Nat → Option (List Nat) → Option (List Nat) → SignOutput

/-- A local `KeyPair` (`src/utils/key_pair`): `getPublicKey()` and `sign`. -/
structure KeyPair where
  publicKey : PublicKey
  sign : List Nat → SignOutput

/-- Model of `fullAccessKey` (lines 28-30). -/
def fullAccessKey : AccessKey :=
  ⟨0, .fullAccess⟩

/-- Model of `functionCallAccessKey` (lines 32-34). -/
def functionCallAccessKey (receiverId : List Nat) (methodNames : List (List Nat))
    (allowance : Option Nat) : AccessKey :=
  ⟨0, .functionCall ⟨allowance, receiverId, methodNames⟩⟩

/-- Model of `createAccount` (lines 62-64). -/
def createAccount : Action := .createAccount

/-- Model of `deployContract` (lines 66-68). -/
def deployContract (code : List Nat) : Action := .deployContract code

/-- Model of `transfer` (lines 94-96). -/
def transfer (deposit : Nat) : Action := .transfer deposit

/-- Model of `stake` (lines 98-100). -/
def stake (stakeAmount : Nat) (publicKey : PublicKey) : Action :=
  .stake stakeAmount publicKey

/-- Model of `addKey` (lines 102-104). -/
def addKey (publicKey : PublicKey) (accessKey : AccessKey) : Action :=
  .addKey publicKey accessKey

/-- Model of `deleteKey` (lines 106-108). -/
def deleteKey (publicKey : PublicKey) : Action := .deleteKey publicKey

/-- Model of `deleteAccount` (lines 110-112). -/
def deleteAccount (beneficiaryId : List Nat) : Action := .deleteAccount beneficiaryId

/-- Model of `signDelegateActionData` (lines 125-131): serialize the delegate action,
sha256 it, sign the hash with the local key pair. -/
def signDelegateActionData (d : DelegateAction) (keyPair : KeyPair) :
    Option Signature :=
  match serDelegateAction d with
  | none => none
  | some message =>
    let hash := sha256 message
    let sig := keyPair.sign hash
    some ⟨keyPair.publicKey.keyType, sig.signature⟩

/-- Model of `delegateAction` (lines 114-123): wrap every given action (without any
nesting check) into `NonDelegateAction`s, self-sign, return `Action.delegate`. -/
def delegateAction (senderId : List Nat) (receiverId : List Nat)
    (actions : List Action) (nonce : Nat) (blockHash : List Nat)
    (keyPair : KeyPair) : Option Action :=
  let publicKey := keyPair.publicKey
  let nonDelegateActions := actions.map NonDelegateAction.mk
  let d := DelegateAction.mk senderId receiverId nonDelegateActions nonce
    blockHash publicKey
  (signDelegateActionData d keyPair).map (fun sig => Action.delegate d sig)

/-- Model of `createTransaction` (lines 274-276): field-by-field assignment, no
validation — `signerId` may be the `undefined` accountId. -/
def createTransaction (signerId : Option (List Nat)) (publicKey : PublicKey)
    (receiverId : List Nat) (nonce : Nat) (actions : List Action)
    (blockHash : List Nat) : Transaction :=
  ⟨signerId, publicKey, nonce, receiverId, actions, blockHash⟩

/-- Model of `signTransactionObject` (lines 285-294): serialize the transaction, hash
the bytes, pass the **serialized message** (not the hash) to
`signer.signMessage`, and assemble the `SignedTransaction`. -/
def signTransactionObject (transaction : Transaction) (signer : Signer)
    (accountId : Option (List Nat)) (networkId : Option (List Nat)) :
    Option (List Nat × SignedTransaction) :=
  match serTransaction transaction with
  | none => none
  | some message =>
    let hash := sha256 message
    let signature := signer.signMessage message accountId networkId
    some (hash, ⟨transaction, ⟨transaction.publicKey.keyType, signature.signature⟩⟩)

/-- The parts overload of `signTransaction` (lines 302-307): fetch the public
key, build the transaction with `createTransaction` (the accountId becomes
`signerId`), then sign it. -/
def signTransactionParts (receiverId : List Nat) (nonce : Nat)
    (actions : List Action) (blockHash : List Nat) (signer : Signer)
    (accountId : Option (List Nat)) (networkId : Option (List Nat)) :
    Option (List Nat × SignedTransaction) :=
  let publicKey := signer.getPublicKey accountId networkId
  let transaction := createTransaction accountId publicKey receiverId nonce
    actions blockHash
  signTransactionObject transaction signer accountId networkId

/-- A JS value as seen by `stringifyJsonOrBytes`: only its `byteLength` and
`length` properties (absent = `undefined`) and the UTF-8 bytes that
`JSON.stringify` would produce for it are relevant. -/
structure JsArgs where
  byteLength : Option Nat
  length : Option Nat
  jsonBytes : List Nat
  deriving DecidableEq

/-- The value stored into the action's `args` slot: either the argument value
itself, unchanged, or the bytes of its JSON serialization. -/
inductive StoredArgs where
  | unchanged (args : JsArgs)
  | jsonSerialized (bytes : List Nat)
  deriving DecidableEq

/-- Model of `stringifyJsonOrBytes` (lines 70-74): duck-typing test
`args.byteLength !== undefined && args.byteLength === args.length`; when it
holds the value passes through unchanged, otherwise
`Buffer.from(JSON.stringify(args))`. -/
def stringifyJsonOrBytes (args : JsArgs) : StoredArgs :=
  let isUint8Array : Bool := match args.byteLength, args.length with
    | some b, some l => b == l
    | _, _ => false
  if isUint8Array then .unchanged args else .jsonSerialized args.jsonBytes

/-- The JS-level `FunctionCall` action record built by `functionCall`. -/
structure FunctionCallJs where
  methodName : List Nat
  args : StoredArgs
  gas : Nat
  deposit : Nat
  deriving DecidableEq

/-- Model of `functionCall` (lines 87-92): with `jsContract` the args pass through
untouched; otherwise the `stringify` parameter (default
`stringifyJsonOrBytes`) converts them. -/
def functionCall (methodName : List Nat) (args : JsArgs) (gas : Nat)
    (deposit : Nat) (stringify : JsArgs → StoredArgs) (jsContract : Bool) :
    FunctionCallJs :=
  if jsContract then ⟨methodName, .unchanged args, gas, deposit⟩
  else ⟨methodName, stringify args, gas, deposit⟩

/-! ### Round-trip lemmas for the primitive codecs -/

theorem natToLe_length (w n : Nat) : (natToLe w n).length = w := by
  induction w generalizing n with
  | zero => rfl
  | succ k ih => simp [natToLe, ih]

theorem leToNat_natToLe (w n : Nat) (h : n < 256 ^ w) :
    leToNat (natToLe w n) = n := by
  induction w generalizing n with
  | zero => simp [Nat.pow_zero] at h; simp [natToLe, leToNat]; omega
  | succ k ih =>
    have hdiv : n / 256 < 256 ^ k := by
      rw [Nat.div_lt_iff_lt_mul (by omega)]
      rw [Nat.pow_succ] at h; omega
    simp [natToLe, leToNat, ih (n / 256) hdiv]
    omega

theorem readBytes_append (w : Nat) (bs rest : List Nat) (h : bs.length = w) :
    readBytes w (bs ++ rest) = some (bs, rest) := by
  subst h
  simp [readBytes, List.take_left, List.drop_left]

theorem parseUInt_serUInt (w n : Nat) (out rest : List Nat)
    (h : serUInt w n = some out) :
    parseUInt w (out ++ rest) = some (n, rest) := by
  simp only [serUInt] at h
  split at h
  · cases h
    simp [parseUInt, readBytes_append w _ rest (natToLe_length w n),
      leToNat_natToLe w n (by assumption)]
  · cases h

theorem serUInt_length (w n : Nat) (out : List Nat)
    (h : serUInt w n = some out) : out.length = w := by
  simp only [serUInt] at h
  split at h
  · cases h; exact natToLe_length w n
  · cases h

theorem serBytesFixed_eq (w : Nat) (bs out : List Nat)
    (h : serBytesFixed w bs = some out) : out = bs ∧ bs.length = w := by
  simp only [serBytesFixed] at h
  split at h
  · cases h; exact ⟨rfl, by tauto⟩
  · cases h

theorem parseString_serString (s out rest : List Nat)
    (h : serString s = some out) :
    parseString (out ++ rest) = some (s, rest) := by
  simp only [serString] at h
  cases hl : serUInt 4 s.length with
  | none => rw [hl] at h; cases h
  | some lenBytes =>
    rw [hl] at h
    dsimp only at h
    by_cases hall : s.all (fun x => decide (x < 256)) = true
    · rw [if_pos hall] at h
      cases h
      simp only [parseString, List.append_assoc]
      rw [parseUInt_serUInt 4 s.length lenBytes (s ++ rest) hl]
      exact readBytes_append _ s rest rfl
    · rw [if_neg hall] at h; cases h

theorem serString_length (s out : List Nat) (h : serString s = some out) :
    out.length = 4 + s.length := by
  simp only [serString] at h
  cases hl : serUInt 4 s.length with
  | none => rw [hl] at h; cases h
  | some lenBytes =>
    rw [hl] at h
    dsimp only at h
    by_cases hall : s.all (fun x => decide (x < 256)) = true
    · rw [if_pos hall] at h
      cases h
      simp [serUInt_length 4 s.length lenBytes hl]
    · rw [if_neg hall] at h; cases h

theorem parseOpt_serOpt {α : Type} (serElem : α → Option (List Nat))
    (parseElem : List Nat → Option (α × List Nat))
    (helem : ∀ v out rest, serElem v = some out →
      parseElem (out ++ rest) = some (v, rest))
    (o : Option α) (out rest : List Nat) (h : serOpt serElem o = some out) :
    parseOpt parseElem (out ++ rest) = some (o, rest) := by
  cases o with
  | none => simp [serOpt] at h; cases h; simp [parseOpt]
  | some v =>
    simp only [serOpt] at h
    cases he : serElem v with
    | none => rw [he] at h; cases h
    | some ebs =>
      rw [he] at h
      cases h
      simp only [List.cons_append, parseOpt]
      rw [if_neg (by omega), helem v ebs rest he]
      rfl

theorem parsePublicKey_ser (pk : PublicKey) (out rest : List Nat)
    (h : serPublicKey pk = some out) :
    parsePublicKey (out ++ rest) = some (pk, rest) := by
  simp only [serPublicKey] at h
  cases hk : serUInt 1 pk.keyType with
  | none => rw [hk] at h; cases h
  | some kt =>
    cases hd : serBytesFixed 32 pk.data with
    | none => rw [hk, hd] at h; cases h
    | some d =>
      rw [hk, hd] at h
      cases h
      obtain ⟨rfl, hlen⟩ := serBytesFixed_eq 32 pk.data d hd
      simp [parsePublicKey, List.append_assoc,
        parseUInt_serUInt 1 pk.keyType kt _ hk,
        readBytes_append 32 pk.data rest hlen]

theorem parseSignature_ser (s : Signature) (out rest : List Nat)
    (h : serSignature s = some out) :
    parseSignature (out ++ rest) = some (s, rest) := by
  simp only [serSignature] at h
  cases hk : serUInt 1 s.keyType with
  | none => rw [hk] at h; cases h
  | some kt =>
    cases hd : serBytesFixed 64 s.data with
    | none => rw [hk, hd] at h; cases h
    | some d =>
      rw [hk, hd] at h
      cases h
      obtain ⟨rfl, hlen⟩ := serBytesFixed_eq 64 s.data d hd
      simp [parseSignature, List.append_assoc,
        parseUInt_serUInt 1 s.keyType kt _ hk,
        readBytes_append 64 s.data rest hlen]

theorem parseStringVec_ser (ms : List (List Nat)) (out rest : List Nat)
    (h : serStringList ms = some out) :
    parseStringVec ms.length (out ++ rest) = some (ms, rest) := by
  induction ms generalizing out rest with
  | nil =>
    simp [serStringList] at h
    subst h
    simp [parseStringVec]
  | cons s tail ih =>
    simp only [serStringList] at h
    cases hs : serString s with
    | none => rw [hs] at h; cases h
    | some b =>
      cases ht : serStringList tail with
      | none => rw [hs, ht] at h; cases h
      | some r =>
        rw [hs, ht] at h
        cases h
        simp only [List.length_cons, parseStringVec, List.append_assoc]
        rw [parseString_serString s b _ hs]
        dsimp only
        rw [ih r rest ht]

theorem parseFunctionCallPermission_ser (p : FunctionCallPermission)
    (out rest : List Nat) (h : serFunctionCallPermission p = some out) :
    parseFunctionCallPermission (out ++ rest) = some (p, rest) := by
  simp only [serFunctionCallPermission] at h
  cases ha : serOpt (serUInt 16) p.allowance with
  | none => rw [ha] at h; cases h
  | some a =>
  cases hr : serString p.receiverId with
  | none => rw [ha, hr] at h; cases h
  | some r =>
  cases hn : serUInt 4 p.methodNames.length with
  | none => rw [ha, hr, hn] at h; cases h
  | some n =>
  cases hm : serStringList p.methodNames with
  | none => rw [ha, hr, hn, hm] at h; cases h
  | some m =>
  rw [ha, hr, hn, hm] at h
  cases h
  simp only [parseFunctionCallPermission, List.append_assoc]
  rw [parseOpt_serOpt (serUInt 16) (parseUInt 16)
    (fun v o rst hv => parseUInt_serUInt 16 v o rst hv) p.allowance a _ ha]
  dsimp only
  rw [parseString_serString p.receiverId r _ hr]
  dsimp only
  rw [parseUInt_serUInt 4 p.methodNames.length n _ hn]
  dsimp only
  rw [parseStringVec_ser p.methodNames m rest hm]

theorem parseAccessKeyPermission_ser (p : AccessKeyPermission)
    (out rest : List Nat) (h : serAccessKeyPermission p = some out) :
    parseAccessKeyPermission (out ++ rest) = some (p, rest) := by
  cases p with
  | functionCall fcp =>
    simp only [serAccessKeyPermission] at h
    cases hf : serFunctionCallPermission fcp with
    | none => rw [hf] at h; cases h
    | some b =>
      rw [hf] at h
      cases h
      simp only [List.cons_append, parseAccessKeyPermission]
      rw [parseFunctionCallPermission_ser fcp b rest hf]
      rfl
  | fullAccess =>
    simp [serAccessKeyPermission] at h
    subst h
    simp [parseAccessKeyPermission]

theorem parseAccessKey_ser (k : AccessKey) (out rest : List Nat)
    (h : serAccessKey k = some out) :
    parseAccessKey (out ++ rest) = some (k, rest) := by
  simp only [serAccessKey] at h
  cases hn : serUInt 8 k.nonce with
  | none => rw [hn] at h; cases h
  | some n =>
  cases hp : serAccessKeyPermission k.permission with
  | none => rw [hn, hp] at h; cases h
  | some p =>
  rw [hn, hp] at h
  cases h
  simp only [parseAccessKey, List.append_assoc]
  rw [parseUInt_serUInt 8 k.nonce n _ hn]
  dsimp only
  rw [parseAccessKeyPermission_ser k.permission p rest hp]

mutual
/-- Parser fuel sufficient for an `Action` (counts delegate nesting). -/
def fuelAction : Action → Nat
  | .delegate d _ => fuelDelegate d + 1
  | _ => 1

/-- Parser fuel sufficient for a `DelegateAction`. -/
def fuelDelegate : DelegateAction → Nat
  | .mk _ _ acts _ _ _ => fuelNDAList acts + 1

/-- Parser fuel sufficient for a wrapped action list. -/
def fuelNDAList : List NonDelegateAction → Nat
  | [] => 1
  | .mk a :: rest => max (fuelAction a + 1) (fuelNDAList rest)
end

mutual
theorem parseAction_ser (a : Action) (out rest : List Nat)
    (hs : serAction a = some out) (fuel : Nat) (hf : fuelAction a ≤ fuel) :
    parseAction fuel (out ++ rest) = some (a, rest) := by
  cases fuel with
  | zero => cases a <;> simp [fuelAction] at hf
  | succ f =>
    cases a with
    | createAccount =>
      simp [serAction] at hs; subst hs
      simp [parseAction]
    | deployContract code =>
      simp only [serAction] at hs
      cases hc : serString code with
      | none => rw [hc] at hs; cases hs
      | some b =>
        rw [hc] at hs; cases hs
        simp only [List.cons_append, parseAction]
        rw [parseString_serString code b rest hc]
        rfl
    | functionCall m args g d =>
      simp only [serAction] at hs
      cases hm : serString m with
      | none => rw [hm] at hs; cases hs
      | some mb =>
      cases ha : serString args with
      | none => rw [hm, ha] at hs; cases hs
      | some ab =>
      cases hg : serUInt 8 g with
      | none => rw [hm, ha, hg] at hs; cases hs
      | some gb =>
      cases hd : serUInt 16 d with
      | none => rw [hm, ha, hg, hd] at hs; cases hs
      | some db =>
      rw [hm, ha, hg, hd] at hs
      cases hs
      simp only [List.cons_append, List.append_assoc, parseAction]
      rw [parseString_serString m mb _ hm]
      dsimp only
      rw [parseString_serString args ab _ ha]
      dsimp only
      rw [parseUInt_serUInt 8 g gb _ hg]
      dsimp only
      rw [parseUInt_serUInt 16 d db rest hd]
    | transfer d =>
      simp only [serAction] at hs
      cases hd : serUInt 16 d with
      | none => rw [hd] at hs; cases hs
      | some db =>
        rw [hd] at hs; cases hs
        simp only [List.cons_append, parseAction]
        rw [parseUInt_serUInt 16 d db rest hd]
        rfl
    | stake s pk =>
      simp only [serAction] at hs
      cases hst : serUInt 16 s with
      | none => rw [hst] at hs; cases hs
      | some sb =>
      cases hpk : serPublicKey pk with
      | none => rw [hst, hpk] at hs; cases hs
      | some pb =>
      rw [hst, hpk] at hs
      cases hs
      simp only [List.cons_append, List.append_assoc, parseAction]
      rw [parseUInt_serUInt 16 s sb _ hst]
      dsimp only
      rw [parsePublicKey_ser pk pb rest hpk]
    | addKey pk ak =>
      simp only [serAction] at hs
      cases hpk : serPublicKey pk with
      | none => rw [hpk] at hs; cases hs
      | some pb =>
      cases hak : serAccessKey ak with
      | none => rw [hpk, hak] at hs; cases hs
      | some kb =>
      rw [hpk, hak] at hs
      cases hs
      simp only [List.cons_append, List.append_assoc, parseAction]
      rw [parsePublicKey_ser pk pb _ hpk]
      dsimp only
      rw [parseAccessKey_ser ak kb rest hak]
    | deleteKey pk =>
      simp only [serAction] at hs
      cases hpk : serPublicKey pk with
      | none => rw [hpk] at hs; cases hs
      | some pb =>
        rw [hpk] at hs; cases hs
        simp only [List.cons_append, parseAction]
        rw [parsePublicKey_ser pk pb rest hpk]
        rfl
    | deleteAccount b =>
      simp only [serAction] at hs
      cases hb : serString b with
      | none => rw [hb] at hs; cases hs
      | some bb =>
        rw [hb] at hs; cases hs
        simp only [List.cons_append, parseAction]
        rw [parseString_serString b bb rest hb]
        rfl
    | delegate d s =>
      simp only [serAction] at hs
      cases hd : serDelegateAction d with
      | none => rw [hd] at hs; cases hs
      | some db =>
      cases hsg : serSignature s with
      | none => rw [hd, hsg] at hs; cases hs
      | some sb =>
      rw [hd, hsg] at hs
      cases hs
      simp only [List.cons_append, List.append_assoc, parseAction]
      have hfd : fuelDelegate d ≤ f := by
        simp only [fuelAction] at hf; omega
      rw [parseDelegateAction_ser d db (sb ++ rest) hd f hfd]
      dsimp only
      rw [parseSignature_ser s sb rest hsg]

theorem parseDelegateAction_ser (d : DelegateAction) (out rest : List Nat)
    (hs : serDelegateAction d = some out) (fuel : Nat)
    (hf : fuelDelegate d ≤ fuel) :
    parseDelegateAction fuel (out ++ rest) = some (d, rest) := by
  cases fuel with
  | zero => cases d; simp [fuelDelegate] at hf
  | succ f =>
    cases d with
    | mk sid rid acts n bh pk =>
      simp only [serDelegateAction] at hs
      cases h1 : serString sid with
      | none => rw [h1] at hs; cases hs
      | some a =>
      cases h2 : serString rid with
      | none => rw [h1, h2] at hs; cases hs
      | some b =>
      cases h3 : serUInt 4 acts.length with
      | none => rw [h1, h2, h3] at hs; cases hs
      | some c =>
      cases h4 : serNonDelegateActionList acts with
      | none => rw [h1, h2, h3, h4] at hs; cases hs
      | some d4 =>
      cases h5 : serUInt 8 n with
      | none => rw [h1, h2, h3, h4, h5] at hs; cases hs
      | some e =>
      cases h6 : serBytesFixed 32 bh with
      | none => rw [h1, h2, h3, h4, h5, h6] at hs; cases hs
      | some f6 =>
      cases h7 : serPublicKey pk with
      | none => rw [h1, h2, h3, h4, h5, h6, h7] at hs; cases hs
      | some g =>
      rw [h1, h2, h3, h4, h5, h6, h7] at hs
      cases hs
      obtain ⟨rfl, hbh⟩ := serBytesFixed_eq 32 bh f6 h6
      simp only [parseDelegateAction, List.append_assoc]
      rw [parseString_serString sid a _ h1]
      dsimp only
      rw [parseString_serString rid b _ h2]
      dsimp only
      rw [parseUInt_serUInt 4 acts.length c _ h3]
      dsimp only
      have hfl : fuelNDAList acts ≤ f := by
        simp only [fuelDelegate] at hf; omega
      rw [parseNDAVec_ser acts d4 _ h4 f hfl]
      dsimp only
      rw [parseUInt_serUInt 8 n e _ h5]
      dsimp only
      rw [readBytes_append 32 _ _ hbh]
      dsimp only
      rw [parsePublicKey_ser pk g rest h7]

theorem parseNDAVec_ser (l : List NonDelegateAction) (out rest : List Nat)
    (hs : serNonDelegateActionList l = some out) (fuel : Nat)
    (hf : fuelNDAList l ≤ fuel) :
    parseNonDelegateActionVec fuel l.length (out ++ rest) = some (l, rest) := by
  cases fuel with
  | zero =>
    cases l with
    | nil => simp [fuelNDAList] at hf
    | cons hd tl => cases hd; simp [fuelNDAList] at hf
  | succ f =>
    cases l with
    | nil =>
      simp [serNonDelegateActionList] at hs
      subst hs
      simp [parseNonDelegateActionVec]
    | cons hd tl =>
      cases hd with
      | mk a =>
        simp only [serNonDelegateActionList] at hs
        cases ha : serAction a with
        | none => rw [ha] at hs; cases hs
        | some ab =>
        cases ht : serNonDelegateActionList tl with
        | none => rw [ha, ht] at hs; cases hs
        | some rb =>
        rw [ha, ht] at hs
        cases hs
        simp only [List.length_cons, List.append_assoc, parseNonDelegateActionVec]
        have hfa : fuelAction a ≤ f := by
          simp only [fuelNDAList] at hf; omega
        rw [parseAction_ser a ab (rb ++ rest) ha f hfa]
        dsimp only
        have hft : fuelNDAList tl ≤ f + 1 := by
          simp only [fuelNDAList] at hf; omega
        rw [parseNDAVec_ser tl rb rest ht (f + 1) hft]
end

mutual
/-- The fuel an action needs never exceeds its encoded length. -/
theorem fuelAction_le_length (a : Action) (out : List Nat)
    (hs : serAction a = some out) : fuelAction a ≤ out.length := by
  cases a with
  | delegate d s =>
    simp only [serAction] at hs
    cases hd : serDelegateAction d with
    | none => rw [hd] at hs; cases hs
    | some db =>
    cases hsg : serSignature s with
    | none => rw [hd, hsg] at hs; cases hs
    | some sb =>
    rw [hd, hsg] at hs
    cases hs
    have := fuelDelegate_le_length d db hd
    simp only [fuelAction, List.length_cons, List.length_append]
    omega
  | createAccount => simp [serAction] at hs; subst hs; simp [fuelAction]
  | deployContract code =>
    cases hc : serString code with
    | none => simp [serAction, hc] at hs
    | some b => simp [serAction, hc] at hs; subst hs; simp [fuelAction]
  | functionCall m args g d =>
    simp only [serAction] at hs
    cases hm : serString m with
    | none => rw [hm] at hs; cases hs
    | some mb =>
    cases ha : serString args with
    | none => rw [hm, ha] at hs; cases hs
    | some ab =>
    cases hg : serUInt 8 g with
    | none => rw [hm, ha, hg] at hs; cases hs
    | some gb =>
    cases hd : serUInt 16 d with
    | none => rw [hm, ha, hg, hd] at hs; cases hs
    | some db =>
    rw [hm, ha, hg, hd] at hs; cases hs; simp [fuelAction]
  | transfer d =>
    cases hd : serUInt 16 d with
    | none => simp [serAction, hd] at hs
    | some db => simp [serAction, hd] at hs; subst hs; simp [fuelAction]
  | stake s pk =>
    simp only [serAction] at hs
    cases hst : serUInt 16 s with
    | none => rw [hst] at hs; cases hs
    | some sb =>
    cases hpk : serPublicKey pk with
    | none => rw [hst, hpk] at hs; cases hs
    | some pb => rw [hst, hpk] at hs; cases hs; simp [fuelAction]
  | addKey pk ak =>
    simp only [serAction] at hs
    cases hpk : serPublicKey pk with
    | none => rw [hpk] at hs; cases hs
    | some pb =>
    cases hak : serAccessKey ak with
    | none => rw [hpk, hak] at hs; cases hs
    | some kb => rw [hpk, hak] at hs; cases hs; simp [fuelAction]
  | deleteKey pk =>
    cases hpk : serPublicKey pk with
    | none => simp [serAction, hpk] at hs
    | some pb => simp [serAction, hpk] at hs; subst hs; simp [fuelAction]
  | deleteAccount b =>
    cases hb : serString b with
    | none => simp [serAction, hb] at hs
    | some bb => simp [serAction, hb] at hs; subst hs; simp [fuelAction]

/-- The fuel a delegate action needs never exceeds its encoded length. -/
theorem fuelDelegate_le_length (d : DelegateAction) (out : List Nat)
    (hs : serDelegateAction d = some out) : fuelDelegate d ≤ out.length := by
  cases d with
  | mk sid rid acts n bh pk =>
    simp only [serDelegateAction] at hs
    cases h1 : serString sid with
    | none => rw [h1] at hs; cases hs
    | some a =>
    cases h2 : serString rid with
    | none => rw [h1, h2] at hs; cases hs
    | some b =>
    cases h3 : serUInt 4 acts.length with
    | none => rw [h1, h2, h3] at hs; cases hs
    | some c =>
    cases h4 : serNonDelegateActionList acts with
    | none => rw [h1, h2, h3, h4] at hs; cases hs
    | some d4 =>
    cases h5 : serUInt 8 n with
    | none => rw [h1, h2, h3, h4, h5] at hs; cases hs
    | some e =>
    cases h6 : serBytesFixed 32 bh with
    | none => rw [h1, h2, h3, h4, h5, h6] at hs; cases hs
    | some f6 =>
    cases h7 : serPublicKey pk with
    | none => rw [h1, h2, h3, h4, h5, h6, h7] at hs; cases hs
    | some g =>
    rw [h1, h2, h3, h4, h5, h6, h7] at hs
    cases hs
    have hvl := fuelNDAList_le_length acts d4 h4
    have hal := serString_length sid a h1
    simp only [fuelDelegate, List.length_append]
    omega

/-- The fuel a wrapped action list needs never exceeds its encoded length
plus one. -/
theorem fuelNDAList_le_length (l : List NonDelegateAction) (out : List Nat)
    (hs : serNonDelegateActionList l = some out) :
    fuelNDAList l ≤ out.length + 1 := by
  cases l with
  | nil => simp [serNonDelegateActionList] at hs; subst hs; simp [fuelNDAList]
  | cons hd tl =>
    cases hd with
    | mk a =>
      simp only [serNonDelegateActionList] at hs
      cases ha : serAction a with
      | none => rw [ha] at hs; cases hs
      | some ab =>
      cases ht : serNonDelegateActionList tl with
      | none => rw [ha, ht] at hs; cases hs
      | some rb =>
      rw [ha, ht] at hs
      cases hs
      have h1 := fuelAction_le_length a ab ha
      have h2 := fuelNDAList_le_length tl rb ht
      simp only [fuelNDAList, List.length_append]
      omega
end

/-- Parser fuel sufficient for a plain action list. -/
def fuelActions : List Action → Nat
  | [] => 0
  | a :: rest => max (fuelAction a) (fuelActions rest)

theorem parseActionVec_ser (l : List Action) (out rest : List Nat)
    (hs : serActionList l = some out) (fuel : Nat)
    (hf : fuelActions l ≤ fuel) :
    parseActionVec fuel l.length (out ++ rest) = some (l, rest) := by
  induction l generalizing out rest with
  | nil =>
    simp [serActionList] at hs
    subst hs
    simp [parseActionVec]
  | cons a tl ih =>
    simp only [serActionList] at hs
    cases ha : serAction a with
    | none => rw [ha] at hs; cases hs
    | some ab =>
    cases ht : serActionList tl with
    | none => rw [ha, ht] at hs; cases hs
    | some rb =>
    rw [ha, ht] at hs
    cases hs
    simp only [List.length_cons, List.append_assoc, parseActionVec]
    have hfa : fuelAction a ≤ fuel := by
      simp only [fuelActions] at hf; omega
    rw [parseAction_ser a ab (rb ++ rest) ha fuel hfa]
    dsimp only
    have hft : fuelActions tl ≤ fuel := by
      simp only [fuelActions] at hf; omega
    rw [ih rb rest ht hft]

theorem fuelActions_le_length (l : List Action) (out : List Nat)
    (hs : serActionList l = some out) : fuelActions l ≤ out.length := by
  induction l generalizing out with
  | nil => simp [serActionList] at hs; subst hs; simp [fuelActions]
  | cons a tl ih =>
    simp only [serActionList] at hs
    cases ha : serAction a with
    | none => rw [ha] at hs; cases hs
    | some ab =>
    cases ht : serActionList tl with
    | none => rw [ha, ht] at hs; cases hs
    | some rb =>
    rw [ha, ht] at hs
    cases hs
    have h1 := fuelAction_le_length a ab ha
    have h2 := ih rb ht
    simp only [fuelActions, List.length_append]
    omega

/-- Transaction-level round trip with any sufficient fuel. -/
theorem parseTransaction_ser (t : Transaction) (out rest : List Nat)
    (hs : serTransaction t = some out) (fuel : Nat)
    (hf : fuelActions t.actions ≤ fuel) :
    parseTransaction fuel (out ++ rest) = some (t, rest) := by
  simp only [serTransaction] at hs
  cases hsid : t.signerId with
  | none => rw [hsid] at hs; cases hs
  | some sid =>
  rw [hsid] at hs
  dsimp only at hs
  cases h1 : serString sid with
  | none => rw [h1] at hs; cases hs
  | some a =>
  cases h2 : serPublicKey t.publicKey with
  | none => rw [h1, h2] at hs; cases hs
  | some b =>
  cases h3 : serUInt 8 t.nonce with
  | none => rw [h1, h2, h3] at hs; cases hs
  | some c =>
  cases h4 : serString t.receiverId with
  | none => rw [h1, h2, h3, h4] at hs; cases hs
  | some d =>
  cases h5 : serBytesFixed 32 t.blockHash with
  | none => rw [h1, h2, h3, h4, h5] at hs; cases hs
  | some e =>
  cases h6 : serUInt 4 t.actions.length with
  | none => rw [h1, h2, h3, h4, h5, h6] at hs; cases hs
  | some f =>
  cases h7 : serActionList t.actions with
  | none => rw [h1, h2, h3, h4, h5, h6, h7] at hs; cases hs
  | some g =>
  rw [h1, h2, h3, h4, h5, h6, h7] at hs
  cases hs
  obtain ⟨rfl, hbh⟩ := serBytesFixed_eq 32 t.blockHash e h5
  simp only [parseTransaction, List.append_assoc]
  rw [parseString_serString sid a _ h1]
  dsimp only
  rw [parsePublicKey_ser t.publicKey b _ h2]
  dsimp only
  rw [parseUInt_serUInt 8 t.nonce c _ h3]
  dsimp only
  rw [parseString_serString t.receiverId d _ h4]
  dsimp only
  rw [readBytes_append 32 _ _ hbh]
  dsimp only
  rw [parseUInt_serUInt 4 t.actions.length f _ h6]
  dsimp only
  rw [parseActionVec_ser t.actions g rest h7 fuel hf]
  dsimp only
  rw [← hsid]

theorem serTransaction_fuel_bound (t : Transaction) (out : List Nat)
    (hs : serTransaction t = some out) : fuelActions t.actions ≤ out.length := by
  simp only [serTransaction] at hs
  cases hsid : t.signerId with
  | none => rw [hsid] at hs; cases hs
  | some sid =>
  rw [hsid] at hs
  dsimp only at hs
  cases h1 : serString sid with
  | none => rw [h1] at hs; cases hs
  | some a =>
  cases h2 : serPublicKey t.publicKey with
  | none => rw [h1, h2] at hs; cases hs
  | some b =>
  cases h3 : serUInt 8 t.nonce with
  | none => rw [h1, h2, h3] at hs; cases hs
  | some c =>
  cases h4 : serString t.receiverId with
  | none => rw [h1, h2, h3, h4] at hs; cases hs
  | some d =>
  cases h5 : serBytesFixed 32 t.blockHash with
  | none => rw [h1, h2, h3, h4, h5] at hs; cases hs
  | some e =>
  cases h6 : serUInt 4 t.actions.length with
  | none => rw [h1, h2, h3, h4, h5, h6] at hs; cases hs
  | some f =>
  cases h7 : serActionList t.actions with
  | none => rw [h1, h2, h3, h4, h5, h6, h7] at hs; cases hs
  | some g =>
  rw [h1, h2, h3, h4, h5, h6, h7] at hs
  cases hs
  have := fuelActions_le_length t.actions g h7
  simp only [List.length_append]
  omega

/-- Encoding then decoding a `Transaction` restores it exactly. -/
theorem transaction_roundtrip (t : Transaction) (bs : List Nat)
    (h : Transaction.encode t = some bs) : Transaction.decode bs = some t := by
  have hp := parseTransaction_ser t bs [] h (bs.length + 1)
    (by have := serTransaction_fuel_bound t bs h; omega)
  rw [List.append_nil] at hp
  simp [Transaction.decode, hp]

/-- Encoding then decoding a `SignedTransaction` restores it exactly. -/
theorem signedTransaction_roundtrip (st : SignedTransaction) (bs : List Nat)
    (h : SignedTransaction.encode st = some bs) :
    SignedTransaction.decode bs = some st := by
  simp only [SignedTransaction.encode, serSignedTransaction] at h
  cases ht : serTransaction st.transaction with
  | none => rw [ht] at h; cases h
  | some tb =>
  cases hsg : serSignature st.signature with
  | none => rw [ht, hsg] at h; cases h
  | some sb =>
  rw [ht, hsg] at h
  cases h
  have hfuel : fuelActions st.transaction.actions ≤ (tb ++ sb).length + 1 := by
    have := serTransaction_fuel_bound st.transaction tb ht
    simp only [List.length_append]
    omega
  have hp := parseTransaction_ser st.transaction tb sb ht
    ((tb ++ sb).length + 1) hfuel
  simp only [SignedTransaction.decode, parseSignedTransaction, hp]
  have hps := parseSignature_ser st.signature sb [] hsg
  rw [List.append_nil] at hps
  rw [hps]

theorem natToBe_length (w n : Nat) : (natToBe w n).length = w := by
  simp [natToBe, natToLe_length]

theorem sha256_length (m : List Nat) : (sha256 m).length = 32 := by
  simp [sha256, natToBe_length]

/-! ### Concrete values used by witnesses and counterexamples -/

/-- A concrete public key (keyType 0, 32 bytes). -/
def pk1 : PublicKey := ⟨0, List.replicate 32 1⟩

/-- A concrete transaction with two actions. -/
def tx1 : Transaction :=
  ⟨some [97], pk1, 1, [98], [.transfer 1, .createAccount], List.replicate 32 2⟩

/-- The canonical encoding of `tx1` (105 bytes). -/
def tx1bytes : List Nat := (serTransaction tx1).getD []

/-- A stub signer returning fixed 64-byte signatures. -/
def signer1 : Signer := ⟨fun _ _ => pk1, fun _ _ _ => ⟨List.replicate 64 1⟩⟩

/-- A signer whose returned signature bytes echo the received message,
so the assembled `SignedTransaction` records what was passed to
`signMessage`. -/
def recordingSigner : Signer := ⟨fun _ _ => pk1, fun m _ _ => ⟨m⟩⟩

/-- A concrete local key pair with a constant signing function. -/
def kp1 : KeyPair := ⟨⟨0, List.replicate 32 4⟩, fun _ => ⟨List.replicate 64 7⟩⟩

/-- A concrete delegate action wrapping one transfer. -/
def da1 : DelegateAction :=
  .mk [97] [98] [.mk (.transfer 5)] 1 (List.replicate 32 3) pk1

/-- The canonical encoding of `da1` (104 bytes). -/
def da1bytes : List Nat := (serDelegateAction da1).getD []

/-! ### The claims -/

/-- C1: for every well-formed entity (in particular every `Transaction` and
every `SignedTransaction` whose encoding succeeds), decoding the bytes
produced by encoding it reconstructs an equal value. -/
theorem claim1_roundtrip :
    (∀ (t : Transaction) (bs : List Nat),
      Transaction.encode t = some bs → Transaction.decode bs = some t) ∧
    (∀ (st : SignedTransaction) (bs : List Nat),
      SignedTransaction.encode st = some bs →
        SignedTransaction.decode bs = some st) :=
  ⟨transaction_roundtrip, signedTransaction_roundtrip⟩

set_option maxRecDepth 100000 in
/-- Witness for C1 at the concrete transaction `tx1`. -/
theorem claim1_roundtrip_witness :
    Transaction.decode tx1bytes = some tx1 :=
  claim1_roundtrip.1 tx1 tx1bytes (by rfl)

/-- The discriminant the claim assigns to every `Action` variant:
0 = CreateAccount, 1 = DeployContract, 2 = FunctionCall, 3 = Transfer,
4 = Stake, 5 = AddKey, 6 = DeleteKey, 7 = DeleteAccount, 8 = Delegate. -/
def actionIndex : Action → Nat
  | .createAccount => 0
  | .deployContract _ => 1
  | .functionCall _ _ _ _ => 2
  | .transfer _ => 3
  | .stake _ _ => 4
  | .addKey _ _ => 5
  | .deleteKey _ => 6
  | .deleteAccount _ => 7
  | .delegate _ _ => 8

/-- C2: the first byte of every successfully encoded `Action` equals the
variant's declared index in the fixed 9-way order. -/
theorem claim2_discriminant (a : Action) (out : List Nat)
    (hs : serAction a = some out) : out.head? = some (actionIndex a) := by
  cases a with
  | createAccount => simp [serAction] at hs; subst hs; rfl
  | deployContract code =>
    cases hc : serString code with
    | none => simp [serAction, hc] at hs
    | some b => simp [serAction, hc] at hs; subst hs; rfl
  | functionCall m args g d =>
    simp only [serAction] at hs
    cases hm : serString m with
    | none => rw [hm] at hs; cases hs
    | some mb =>
    cases ha : serString args with
    | none => rw [hm, ha] at hs; cases hs
    | some ab =>
    cases hg : serUInt 8 g with
    | none => rw [hm, ha, hg] at hs; cases hs
    | some gb =>
    cases hd : serUInt 16 d with
    | none => rw [hm, ha, hg, hd] at hs; cases hs
    | some db => rw [hm, ha, hg, hd] at hs; cases hs; rfl
  | transfer d =>
    cases hd : serUInt 16 d with
    | none => simp [serAction, hd] at hs
    | some db => simp [serAction, hd] at hs; subst hs; rfl
  | stake s pk =>
    simp only [serAction] at hs
    cases hst : serUInt 16 s with
    | none => rw [hst] at hs; cases hs
    | some sb =>
    cases hpk : serPublicKey pk with
    | none => rw [hst, hpk] at hs; cases hs
    | some pb => rw [hst, hpk] at hs; cases hs; rfl
  | addKey pk ak =>
    simp only [serAction] at hs
    cases hpk : serPublicKey pk with
    | none => rw [hpk] at hs; cases hs
    | some pb =>
    cases hak : serAccessKey ak with
    | none => rw [hpk, hak] at hs; cases hs
    | some kb => rw [hpk, hak] at hs; cases hs; rfl
  | deleteKey pk =>
    cases hpk : serPublicKey pk with
    | none => simp [serAction, hpk] at hs
    | some pb => simp [serAction, hpk] at hs; subst hs; rfl
  | deleteAccount b =>
    cases hb : serString b with
    | none => simp [serAction, hb] at hs
    | some bb => simp [serAction, hb] at hs; subst hs; rfl
  | delegate d s =>
    simp only [serAction] at hs
    cases hd : serDelegateAction d with
    | none => rw [hd] at hs; cases hs
    | some db =>
    cases hsg : serSignature s with
    | none => rw [hd, hsg] at hs; cases hs
    | some sb => rw [hd, hsg] at hs; cases hs; rfl

/-- Witness for C2 at a concrete `Transfer` action. -/
theorem claim2_discriminant_witness :
    ((serAction (Action.transfer 1000)).getD []).head? =
      some (actionIndex (Action.transfer 1000)) :=
  claim2_discriminant (Action.transfer 1000)
    ((serAction (Action.transfer 1000)).getD []) (by rfl)

/-- Whether an action is the `Delegate` variant. -/
def isDelegateVariant : Action → Bool
  | .delegate _ _ => true
  | _ => false

/-- A concrete `Action.delegate` value produced by the builder itself. -/
def innerDelegate : Action :=
  (delegateAction [97] [98] [Action.transfer 1] 1 (List.replicate 32 3)
    kp1).getD Action.createAccount

set_option maxRecDepth 100000 in
/-- C3 counterexample: a `delegateAction` call whose wrapped list contains a
`Delegate` action is **not** rejected — it succeeds and produces a nested
`DelegateAction`. -/
theorem claim3_counterexample :
    (delegateAction [100] [101] [innerDelegate] 2 (List.replicate 32 6)
        kp1).isSome = true := by
  rfl

/-- C3 amended: the builder performs no nesting check; whenever it succeeds
on a list containing a `Delegate` variant it returns a nested
`DelegateAction` wrapping exactly the given actions. -/
theorem claim3_amended (senderId receiverId : List Nat) (actions : List Action)
    (nonce : Nat) (blockHash : List Nat) (keyPair : KeyPair) (a : Action)
    (_hnest : actions.any isDelegateVariant = true)
    (h : delegateAction senderId receiverId actions nonce blockHash keyPair
      = some a) :
    ∃ sig, a = Action.delegate
      (DelegateAction.mk senderId receiverId (actions.map NonDelegateAction.mk)
        nonce blockHash keyPair.publicKey) sig := by
  simp only [delegateAction] at h
  cases hsd : signDelegateActionData
      (DelegateAction.mk senderId receiverId
        (actions.map NonDelegateAction.mk) nonce blockHash keyPair.publicKey)
      keyPair with
  | none => rw [hsd] at h; cases h
  | some sig =>
    rw [hsd] at h
    cases h
    exact ⟨sig, rfl⟩

set_option maxRecDepth 100000 in
/-- Witness for the amended C3 at the counterexample input. -/
theorem claim3_amended_witness :
    ∃ sig, (delegateAction [100] [101] [innerDelegate] 2
        (List.replicate 32 6) kp1).getD Action.createAccount =
      Action.delegate
        (DelegateAction.mk [100] [101] [NonDelegateAction.mk innerDelegate] 2
          (List.replicate 32 6) kp1.publicKey) sig :=
  claim3_amended [100] [101] [innerDelegate] 2 (List.replicate 32 6) kp1
    ((delegateAction [100] [101] [innerDelegate] 2 (List.replicate 32 6)
      kp1).getD Action.createAccount) (by rfl) (by rfl)

/-- C4: signing a pre-built transaction hashes its canonical encoding, keeps
the transaction intact, stores the signer's returned bytes as the signature
data, and copies the transaction public key's key type. -/
theorem claim4_signTransactionObject (t : Transaction) (signer : Signer)
    (accountId networkId : Option (List Nat)) (bs : List Nat)
    (h : serTransaction t = some bs) :
    signTransactionObject t signer accountId networkId =
      some (sha256 bs,
        ⟨t, ⟨t.publicKey.keyType,
          (signer.signMessage bs accountId networkId).signature⟩⟩) := by
  simp [signTransactionObject, h]

set_option maxRecDepth 100000 in
/-- Witness for C4 at `tx1` with the stub signer. -/
theorem claim4_signTransactionObject_witness :
    signTransactionObject tx1 signer1 none none =
      some (sha256 tx1bytes,
        ⟨tx1, ⟨tx1.publicKey.keyType,
          (signer1.signMessage tx1bytes none none).signature⟩⟩) :=
  claim4_signTransactionObject tx1 signer1 none none tx1bytes (by rfl)

set_option maxRecDepth 100000 in
/-- C5 counterexample: with a signer that echoes the received message into the
signature bytes, the recorded message differs from the sha256 hash of the
canonical encoding — `signMessage` receives the un-hashed encoding (105 bytes
for `tx1`), not the 32-byte hash. -/
theorem claim5_counterexample :
    (signTransactionObject tx1 recordingSigner none none).map
        (fun p => p.2.signature.data) ≠
      (serTransaction tx1).map sha256 := by
  intro h
  have h1 : (signTransactionObject tx1 recordingSigner none none).map
      (fun p => p.2.signature.data) = some tx1bytes := by rfl
  have h2 : (serTransaction tx1).map sha256 = some (sha256 tx1bytes) := by rfl
  rw [h1, h2] at h
  have hlen := congrArg (fun o => Option.map List.length o) h
  have h105 : tx1bytes.length = 105 := by rfl
  simp [sha256_length, h105] at hlen

/-- C5 amended: the message handed to the external signer's `signMessage` is
the serialized transaction itself (the sha256 hash is only computed for the
returned hash value); the **delegate-action** path does sign the sha256 hash
with the local key pair. -/
theorem claim5_amended :
    (∀ (t : Transaction) (signer : Signer)
      (accountId networkId : Option (List Nat)) (bs : List Nat),
      serTransaction t = some bs →
        (signTransactionObject t signer accountId networkId).map
            (fun p => p.2.signature.data) =
          some (signer.signMessage bs accountId networkId).signature) ∧
    (∀ (d : DelegateAction) (keyPair : KeyPair) (bs : List Nat),
      serDelegateAction d = some bs →
        signDelegateActionData d keyPair =
          some ⟨keyPair.publicKey.keyType,
            (keyPair.sign (sha256 bs)).signature⟩) := by
  constructor
  · intro t signer accountId networkId bs h
    simp [signTransactionObject, h]
  · intro d keyPair bs h
    simp [signDelegateActionData, h]

set_option maxRecDepth 100000 in
/-- Witness for the amended C5 at `tx1` and `da1`. -/
theorem claim5_amended_witness :
    ((signTransactionObject tx1 recordingSigner none none).map
        (fun p => p.2.signature.data) =
      some (recordingSigner.signMessage tx1bytes none none).signature) ∧
    (signDelegateActionData da1 kp1 =
      some ⟨kp1.publicKey.keyType, (kp1.sign (sha256 da1bytes)).signature⟩) :=
  ⟨claim5_amended.1 tx1 recordingSigner none none tx1bytes (by rfl),
   claim5_amended.2 da1 kp1 da1bytes (by rfl)⟩

/-- Modelled from the claim's field order (signerId, publicKey, nonce,
receiverId, **actions, blockHash**), for comparison with the SCHEMA order
actually implemented by `serTransaction`. -/
def serTransactionClaimOrder (t : Transaction) : Option (List Nat) :=
  match t.signerId with
  | none => none
  | some sid =>
    match serString sid, serPublicKey t.publicKey, serUInt 8 t.nonce,
          serString t.receiverId, serUInt 4 t.actions.length,
          serActionList t.actions, serBytesFixed 32 t.blockHash with
    | some a, some b, some c, some d, some f, some g, some e =>
      some (a ++ b ++ c ++ d ++ (f ++ g) ++ e)
    | _, _, _, _, _, _, _ => none

/-- A transaction whose blockHash bytes (sevens) differ from the empty
actions encoding, exposing the field order on the wire. -/
def tx6 : Transaction := ⟨some [97], pk1, 1, [98], [], List.replicate 32 7⟩

set_option maxRecDepth 100000 in
/-- C6 counterexample: the encoded bytes do not follow the claimed order
(actions before blockHash) — at `tx6` the SCHEMA encoding and the
claimed-order encoding disagree. -/
theorem claim6_counterexample :
    serTransaction tx6 ≠ serTransactionClaimOrder tx6 := by
  decide

/-- C6 amended: `serTransaction` writes the struct fields in the SCHEMA's
declared order — signerId, publicKey, nonce, receiverId, **blockHash,
actions** — as plain concatenation with no padding. -/
theorem claim6_field_order (t : Transaction) (sid a b c d e f g : List Nat)
    (hsid : t.signerId = some sid)
    (h1 : serString sid = some a)
    (h2 : serPublicKey t.publicKey = some b)
    (h3 : serUInt 8 t.nonce = some c)
    (h4 : serString t.receiverId = some d)
    (h5 : serBytesFixed 32 t.blockHash = some e)
    (h6 : serUInt 4 t.actions.length = some f)
    (h7 : serActionList t.actions = some g) :
    serTransaction t = some (a ++ b ++ c ++ d ++ e ++ (f ++ g)) := by
  simp [serTransaction, hsid, h1, h2, h3, h4, h5, h6, h7]

set_option maxRecDepth 100000 in
/-- Witness for the amended C6 at `tx6`. -/
theorem claim6_field_order_witness :
    serTransaction tx6 = some ((serString [97]).getD []
      ++ (serPublicKey pk1).getD [] ++ (serUInt 8 1).getD []
      ++ (serString [98]).getD []
      ++ (serBytesFixed 32 (List.replicate 32 7)).getD []
      ++ ((serUInt 4 0).getD [] ++ (serActionList []).getD [])) :=
  claim6_field_order tx6 [97] ((serString [97]).getD [])
    ((serPublicKey pk1).getD []) ((serUInt 8 1).getD [])
    ((serString [98]).getD [])
    ((serBytesFixed 32 (List.replicate 32 7)).getD [])
    ((serUInt 4 0).getD []) ((serActionList []).getD [])
    (by rfl) (by rfl) (by rfl) (by rfl) (by rfl) (by rfl) (by rfl) (by rfl)

/-- C7: the parts call shape of `signTransaction` equals fetching the public
key, building the transaction with `createTransaction` (accountId as
signerId), and signing that pre-built transaction with the same signer,
accountId and networkId. -/
theorem claim7_call_shapes (receiverId : List Nat) (nonce : Nat)
    (actions : List Action) (blockHash : List Nat) (signer : Signer)
    (accountId networkId : Option (List Nat)) :
    signTransactionParts receiverId nonce actions blockHash signer accountId
        networkId =
      signTransactionObject
        (createTransaction accountId (signer.getPublicKey accountId networkId)
          receiverId nonce actions blockHash)
        signer accountId networkId := by
  rfl

/-- C8: `functionCall` with the default `stringifyJsonOrBytes` and
`jsContract = false` decides raw-bytes versus JSON by the duck-typing test
on `byteLength`/`length` alone: matching defined properties pass the value
through unchanged, anything else is JSON-serialized. -/
theorem claim8_duck_typing (methodName : List Nat) (args : JsArgs)
    (gas deposit : Nat) :
    ((∃ b, args.byteLength = some b ∧ args.length = some b) →
      (functionCall methodName args gas deposit stringifyJsonOrBytes
        false).args = .unchanged args) ∧
    ((¬ ∃ b, args.byteLength = some b ∧ args.length = some b) →
      (functionCall methodName args gas deposit stringifyJsonOrBytes
        false).args = .jsonSerialized args.jsonBytes) := by
  constructor
  · rintro ⟨b, hb, hl⟩
    simp [functionCall, stringifyJsonOrBytes, hb, hl]
  · intro hno
    cases hb : args.byteLength with
    | none => simp [functionCall, stringifyJsonOrBytes, hb]
    | some b =>
      cases hl : args.length with
      | none => simp [functionCall, stringifyJsonOrBytes, hb, hl]
      | some l =>
        have hne : b ≠ l := fun he => hno ⟨b, hb, by rw [hl, he]⟩
        simp [functionCall, stringifyJsonOrBytes, hb, hl, hne]

/-- A value whose `byteLength` and `length` agree (as a `Uint8Array`'s do —
or a plain object faking them). -/
def argsDuck : JsArgs := ⟨some 3, some 3, [49]⟩

/-- A value without a `byteLength` property (a plain JSON-able object). -/
def argsPlain : JsArgs := ⟨none, some 2, [34]⟩

/-- Witness for C8 at one duck-typed and one plain value. -/
theorem claim8_duck_typing_witness :
    (functionCall [102] argsDuck 1 2 stringifyJsonOrBytes false).args =
        .unchanged argsDuck ∧
    (functionCall [102] argsPlain 1 2 stringifyJsonOrBytes false).args =
        .jsonSerialized argsPlain.jsonBytes :=
  ⟨(claim8_duck_typing [102] argsDuck 1 2).1 ⟨3, rfl, rfl⟩,
   (claim8_duck_typing [102] argsPlain 1 2).2
     (fun he => by obtain ⟨b, hb, _⟩ := he; cases hb)⟩

/-- C9: the access-key builders fix the nonce to zero; the function-call
builder stores exactly the given receiverId, methodNames and allowance in
the `FunctionCall` permission variant. -/
theorem claim9_access_keys :
    (fullAccessKey.nonce = 0 ∧
      fullAccessKey.permission = AccessKeyPermission.fullAccess) ∧
    (∀ (receiverId : List Nat) (methodNames : List (List Nat))
      (allowance : Option Nat),
      (functionCallAccessKey receiverId methodNames allowance).nonce = 0 ∧
      (functionCallAccessKey receiverId methodNames allowance).permission =
        AccessKeyPermission.functionCall
          ⟨allowance, receiverId, methodNames⟩) :=
  ⟨⟨rfl, rfl⟩, fun _ _ _ => ⟨rfl, rfl⟩⟩

set_option maxRecDepth 100000 in
/-- C10 counterexample: a parts-form call with the accountId omitted does
**not** produce a signed transaction with an undefined signerId — it fails
(the undefined signerId cannot be serialized as a string). -/
theorem claim10_counterexample :
    signTransactionParts [98] 1 [] (List.replicate 32 2) signer1 none none =
      none := by
  rfl

/-- C10 amended: the built transaction's signerId is taken verbatim from the
accountId argument (also when the signing succeeds), but an omitted
accountId makes the parts-form signing fail at serialization instead of
signing with an undefined signerId. -/
theorem claim10_signerId :
    (∀ (pk : PublicKey) (receiverId : List Nat) (nonce : Nat)
      (actions : List Action) (blockHash : List Nat)
      (accountId : Option (List Nat)),
      (createTransaction accountId pk receiverId nonce actions
        blockHash).signerId = accountId) ∧
    (∀ (receiverId : List Nat) (nonce : Nat) (actions : List Action)
      (blockHash : List Nat) (signer : Signer)
      (accountId networkId : Option (List Nat)) (hash : List Nat)
      (stx : SignedTransaction),
      signTransactionParts receiverId nonce actions blockHash signer
          accountId networkId = some (hash, stx) →
        stx.transaction.signerId = accountId) ∧
    (∀ (receiverId : List Nat) (nonce : Nat) (actions : List Action)
      (blockHash : List Nat) (signer : Signer)
      (networkId : Option (List Nat)),
      signTransactionParts receiverId nonce actions blockHash signer none
        networkId = none) := by
  refine ⟨fun _ _ _ _ _ _ => rfl, ?_, fun _ _ _ _ _ _ => rfl⟩
  intro receiverId nonce actions blockHash signer accountId networkId hash
    stx h
  simp only [signTransactionParts, signTransactionObject] at h
  cases hser : serTransaction (createTransaction accountId
      (signer.getPublicKey accountId networkId) receiverId nonce actions
      blockHash) with
  | none => rw [hser] at h; cases h
  | some msg =>
    rw [hser] at h
    dsimp only at h
    cases h
    rfl

/-- The result of a successful parts-form call with accountId present. -/
def parts10 : Option (List Nat × SignedTransaction) :=
  signTransactionParts [98] 1 [] (List.replicate 32 2) signer1 (some [97])
    none

/-- The signed transaction of `parts10`. -/
def stx10 : SignedTransaction :=
  (parts10.map Prod.snd).getD ⟨⟨none, pk1, 0, [], [], []⟩, ⟨0, []⟩⟩

set_option maxRecDepth 100000 in
/-- Witness for the amended C10: the successful parts-form call carries the
accountId into the signed transaction's signerId. -/
theorem claim10_signerId_witness : stx10.transaction.signerId = some [97] :=
  claim10_signerId.2.1 [98] 1 [] (List.replicate 32 2) signer1 (some [97])
    none ((parts10.map Prod.fst).getD []) stx10 (by rfl)

end NearTx
